import Mathlib

set_option allowUnsafeReducibility true
attribute [local semireducible] Rat.add Rat.mul Rat.sub Rat.div Rat.inv Rat.ofScientific

/-!
Verification of the Geospatial-Services core against its specification.

This file gives a shallow embedding, in Lean 4, of the core compute
functions of the repository (`Services/MatrixServices.py`,
`Services/IsochroneServices.py`, `Services/DirectionsServices.py`,
`Utils/usageTracker.py`) and proves or refutes the specified properties.

Conventions used throughout:
* Python floats are modelled as exact rationals (`ℚ`).
* `float('inf')` entries are modelled as `Option ℚ` with `none` standing
  for infinity.
* Python dictionaries are modelled as association lists in insertion
  order; Python sets of small naturals iterate in ascending order.
* A Python function that can raise is modelled with `Except`/`Option`.
-/

/-! ## Travel-time model (`MatrixServices.calculate_realistic_travel_time`) -/

/-- The `maxspeed` attribute of an OSM edge after Python's type dispatch in
`calculate_realistic_travel_time` (a list-valued attribute is already
collapsed to its head, as the code does). `strBad` stands for a string
whose first token does not parse as a float, which makes `float(...)`
raise and sends the code into its per-edge exception handler. -/
inductive MaxspeedVal
  | strMph (v : ℚ)
  | strPlain (v : ℚ)
  | num (v : ℚ)
  | strBad
deriving Repr, DecidableEq

/-- Data attached to one directed edge (`length` defaults to 0 via
`edge_data.get('length', 0)`; an absent `maxspeed` is `none`). -/
structure EdgeData where
  length : ℚ
  maxspeed : Option MaxspeedVal
  highway : String
deriving Repr, DecidableEq

/-- A directed multigraph as used by the matrix builder: a node list and a
directed edge list in insertion order (parallel edges keep their order, so
edge key 0 is the first matching entry). -/
structure OsmGraph where
  nodes : List ℕ
  nodeY : ℕ → Option ℚ
  nodeX : ℕ → Option ℚ
  edges : List (ℕ × ℕ × EdgeData)

/-- `graph.get_edge_data(u, v, 0)`: the data of the first edge `u → v`. -/
def get_edge_data (g : OsmGraph) (u v : ℕ) : Option EdgeData :=
  (g.edges.find? (fun e => e.1 == u && e.2.1 == v)).map (fun e => e.2.2)

/-- The highway-class speed table of `get_speed_by_road_type`, in the
insertion order of the Python dict. -/
def speed_map : List (String × ℚ) :=
  [("motorway", 120), ("trunk", 100), ("primary", 90), ("secondary", 80),
   ("tertiary", 60), ("residential", 40), ("service", 30),
   ("living_street", 20), ("pedestrian", 5), ("track", 30),
   ("unclassified", 50)]

/-- `pat` is a prefix of `hay` (character lists). -/
def prefixChars : List Char → List Char → Bool
  | [], _ => true
  | _ :: _, [] => false
  | a :: as, b :: bs => a == b && prefixChars as bs

/-- `pat` occurs somewhere inside `hay`: Python's `pat in hay`. -/
def containsChars (pat : List Char) : List Char → Bool
  | [] => prefixChars pat []
  | b :: bs => prefixChars pat (b :: bs) || containsChars pat bs

/-- `get_speed_by_road_type`: first table entry whose key occurs as a
substring of the highway tag (Python's `road_type in highway_type`),
default 50. -/
def get_speed_by_road_type (highway_type : String) : ℚ :=
  match speed_map.find? (fun p => containsChars p.1.toList highway_type.toList) with
  | some p => p.2
  | none => 50

/-- Speed resolution for one edge, following the code: a numeric
`maxspeed` is used directly, a string `"NN mph"` is scaled by 1.60934,
another numeric string is used as km/h, and an absent `maxspeed` falls
back to the highway-class table. `none` models the exception raised by
`float(...)` on an unparseable string. -/
def edge_speed_kph (e : EdgeData) : Option ℚ :=
  match e.maxspeed with
  | some (.strMph v) => some (v * (160934 / 100000))
  | some (.strPlain v) => some v
  | some (.num v) => some v
  | some .strBad => none
  | none => some (get_speed_by_road_type e.highway)

/-- Per-edge travel time in seconds. The exception handler of the code
(`float` failure, or division by a zero speed) charges the edge at
30 km/h. -/
def edge_time (e : EdgeData) : ℚ :=
  match edge_speed_kph e with
  | some s => if s = 0 then e.length / (30 * 1000 / 3600) else e.length / (s * 1000 / 3600)
  | none => e.length / (30 * 1000 / 3600)

/-- Python `max` on rationals, kept kernel-computable. -/
def pyMax (a b : ℚ) : ℚ := if a ≤ b then b else a

/-- The edge loop of `calculate_realistic_travel_time`: accumulated
(edge-time sum, length sum) over consecutive pairs of the path; an absent
edge contributes nothing (`if edge_data:` is false). -/
def travel_time_core (g : OsmGraph) : List ℕ → ℚ × ℚ
  | u :: v :: rest =>
    let tail := travel_time_core g (v :: rest)
    match get_edge_data g u v with
    | some e => (edge_time e + tail.1, e.length + tail.2)
    | none => tail
  | _ => (0, 0)

/-- `calculate_realistic_travel_time`: edge loop, then the 25 km/h repair
of a zero time over a positive distance, then the congestion factor 1.4
applied to the edge-time total, and finally the intersection penalty
(15 s per interior node) plus the 20 s startup/stop overhead added
unscaled — this last ordering is where the code and the spec diverge. -/
def calculate_realistic_travel_time (g : OsmGraph) (path : List ℕ) : ℚ :=
  if path.length < 2 then 0
  else
    let intersection_time : ℚ := pyMax 0 (((path.length : ℤ) - 2 : ℤ) * 15)
    let core := travel_time_core g path
    let total_time := if core.1 = 0 ∧ 0 < core.2 then core.2 / (25 * 1000 / 3600) else core.1
    total_time * (14 / 10) + (intersection_time + 20)

/-- The travel-time formula in the order the claim states it: per-edge
times, plus the intersection penalty, then everything multiplied by 1.4,
then the 20 s overhead. Written from the spec's words, for comparison
with `calculate_realistic_travel_time`. -/
def claimed_travel_time (g : OsmGraph) (path : List ℕ) : ℚ :=
  let intersection_time : ℚ := pyMax 0 (((path.length : ℤ) - 2 : ℤ) * 15)
  let core := travel_time_core g path
  ((core.1 + intersection_time) * (14 / 10)) + 20

/-- The amended formula: only the per-edge total is scaled by the 1.4
congestion factor; the intersection penalty and the 20 s overhead are
added afterwards, unscaled. -/
def amended_travel_time (g : OsmGraph) (path : List ℕ) : ℚ :=
  (travel_time_core g path).1 * (14 / 10) + 15 * ((path.length : ℚ) - 2) + 20

/-- A consecutive pair of the path has edge data whose speed resolves
without an exception to a positive value on a nonnegative length. -/
def edgeOk (g : OsmGraph) (u v : ℕ) : Bool :=
  match get_edge_data g u v with
  | some e =>
    match edge_speed_kph e with
    | some s => decide (0 < s) && decide (0 ≤ e.length)
    | none => false
  | none => false

/-- All consecutive pairs of a path satisfy `edgeOk`. -/
def pathOk (g : OsmGraph) : List ℕ → Bool
  | u :: v :: rest => edgeOk g u v && pathOk g (v :: rest)
  | _ => true

/-- Concrete two-edge graph used to separate the code's formula from the
claim's formula. -/
def c2Graph : OsmGraph where
  nodes := [0, 1, 2]
  nodeY := fun _ => none
  nodeX := fun _ => none
  edges :=
    [(0, 1, { length := 1000, maxspeed := none, highway := "residential" }),
     (1, 2, { length := 1000, maxspeed := none, highway := "residential" })]

/-! ## Transport-mode normalization (`DirectionsServices.validate_transport_mode`) -/

/-- Python `str.lower` restricted to the ASCII range used by mode names. -/
def pyLower (s : String) : String := ⟨s.toList.map Char.toLower⟩

/-- Python whitespace test used by `str.strip`. -/
def isPySpace (c : Char) : Bool :=
  c == ' ' || c == '\t' || c == '\n' || c == '\r'

/-- Python `str.strip`. -/
def pyStrip (s : String) : String :=
  ⟨((s.toList.dropWhile isPySpace).reverse.dropWhile isPySpace).reverse⟩

/-- The alias table of `validate_transport_mode`, in dict insertion order. -/
def mode_aliases : List (String × String) :=
  [("car", "driving"), ("drive", "driving"), ("auto", "driving"),
   ("walk", "foot"), ("walking", "foot"), ("pedestrian", "foot"),
   ("cycle", "bike"), ("cycling", "bike"), ("bicycle", "bike")]

/-- The keys of `OSRM_SERVERS`, the set of canonical modes. -/
def osrm_modes : List String := ["driving", "foot", "bike"]

/-- `validate_transport_mode`: a falsy mode defaults to driving, otherwise
the lowered and stripped mode is pushed through the alias table and must
be a canonical mode, else `ValueError`. -/
def validate_transport_mode (mode : String) : Except String String :=
  if mode = "" then .ok "driving"
  else
    let m := pyStrip (pyLower mode)
    let normalized := (((mode_aliases.find? (fun p => p.1 == m)).map (fun p => p.2)).getD m)
    if normalized ∈ osrm_modes then .ok normalized
    else .error ("Invalid transport mode: " ++ m ++ ". Supported modes: driving, foot, bike")

/-- The 400 response body built by the `calculate_route` handler when
`validate_transport_mode` raises. -/
structure ModeErrorResponse where
  status : ℕ
  supported_modes : List String
deriving Repr, DecidableEq

/-- The transport-mode validation step of the `/route` handler
(`DirectionsApi.calculate_route`): the validated mode on success, or a
400 response enumerating the supported modes on `ValueError`. -/
def handler_validate_mode (mode : String) : Except ModeErrorResponse String :=
  match validate_transport_mode mode with
  | .ok m => .ok m
  | .error _ => .error { status := 400, supported_modes := ["driving", "foot", "bike"] }


/-! ## Usage tracker (`Utils/usageTracker.track_usage`) -/

/-- The shape of the handler's return value, as discriminated by the
`isinstance` chain of the wrapper: a Flask `Response`, a tuple whose
first element is a `Response`, a plain `(content, status)` tuple, or
anything else (which the wrapper logs and treats as status 500). -/
inductive PyResponse (β : Type)
  | flask (status : ℕ) (body : Option β)
  | tupleFlask (status : ℕ) (body : Option β)
  | tuplePlain (content : β) (status : ℕ)
  | other (v : β)
deriving Repr, DecidableEq

/-- The status code the wrapper extracts from each response shape. -/
def response_status {β : Type} : PyResponse β → ℕ
  | .flask s _ => s
  | .tupleFlask s _ => s
  | .tuplePlain _ s => s
  | .other _ => 500

/-- The record built by `_extract_analytics_data`. The per-API extractor
is wrapped in its own `try/except` that returns the base record on
failure, so a (truthy, nonempty) record comes back either way; only the
presence of the API-specific fields depends on the extractor. -/
structure AnalyticsData where
  hasApiFields : Bool
deriving Repr, DecidableEq

/-- `_extract_analytics_data`: always returns a record; `extractOk` is
whether the per-API field extraction succeeded. -/
def extract_analytics_data (extractOk : Bool) : AnalyticsData :=
  { hasApiFields := extractOk }

/-- The observable outcome of one pass through the `track_usage`
wrapper: the value returned to the client, and which records were
persisted. -/
structure TrackerEffects (β : Type) where
  returned : PyResponse β
  usagePersisted : Bool
  analyticsRecord : Option AnalyticsData
deriving Repr, DecidableEq

/-- The `track_usage` decorator body after the wrapped handler has
produced `response`. `jwtUser` is the identity from JWT verification
(`none` when `verify_jwt_in_request` raised), `logOk` / `createOk` model
whether the two persistence calls succeed (their exceptions are caught
by the wrapper's inner `try`), and `extractOk` models whether the
per-API analytics extraction succeeds. The wrapper always returns the
handler's response. -/
def track_usage {β : Type} (jwtUser : Option ℕ)
    (logOk extractOk createOk : Bool) (response : PyResponse β) :
    TrackerEffects β :=
  let status_code := response_status response
  match jwtUser with
  | none =>
    { returned := response, usagePersisted := false, analyticsRecord := none }
  | some _ =>
    if logOk then
      if status_code < 400 then
        let analytics_data := extract_analytics_data extractOk
        if createOk then
          { returned := response, usagePersisted := true,
            analyticsRecord := some analytics_data }
        else
          { returned := response, usagePersisted := true, analyticsRecord := none }
      else
        { returned := response, usagePersisted := true, analyticsRecord := none }
    else
      { returned := response, usagePersisted := false, analyticsRecord := none }


/-! ## Graph cache memory bound (`IsochroneServices.GraphCache`) -/

/-- The memory cache: entries `(cache key, graph, access time)` in dict
insertion order. `memory_cache` and `cache_access_times` always hold the
same key set in the code, so one list models both. -/
abbrev CacheMem (γ : Type) : Type := List (String × γ × ℚ)

/-- Fold of Python's `min(keys, key=access time)`: first key attaining
the minimal access time. -/
def lruAccum {γ : Type} : String × ℚ → CacheMem γ → String
  | (k, _), [] => k
  | (k, t), (k2, _, t2) :: rest =>
    if t2 < t then lruAccum (k2, t2) rest else lruAccum (k, t) rest

/-- The least-recently-used key (`none` on an empty cache, where Python's
`min` would raise `ValueError`). -/
def lruKey {γ : Type} : CacheMem γ → Option String
  | [] => none
  | (k, _, t) :: rest => some (lruAccum (k, t) rest)

/-- `del memory_cache[k]; del cache_access_times[k]`. -/
def removeKey {γ : Type} (k : String) (st : CacheMem γ) : CacheMem γ :=
  st.filter (fun e => !(e.1 == k))

/-- `_manage_memory_cache`: evict the least recently used entry when the
cache has reached `max_memory_graphs`. -/
def manage_memory_cache {γ : Type} (maxG : ℕ) (st : CacheMem γ) : CacheMem γ :=
  if maxG ≤ st.length then
    match lruKey st with
    | some k => removeKey k st
    | none => st
  else st

/-- Dict assignment `memory_cache[k] = g; cache_access_times[k] = t`:
update in place when the key exists, append otherwise. -/
def cacheInsert {γ : Type} (k : String) (g : γ) (t : ℚ) (st : CacheMem γ) : CacheMem γ :=
  if st.any (fun e => e.1 == k) then
    st.map (fun e => if e.1 == k then (k, g, t) else e)
  else st ++ [(k, g, t)]

/-- The insertion performed on a disk hit (promotion) and after a
synchronous download: `_manage_memory_cache()` then the dict
assignment. -/
def memory_cache_put {γ : Type} (maxG : ℕ) (k : String) (g : γ) (t : ℚ)
    (st : CacheMem γ) : CacheMem γ :=
  cacheInsert k g t (manage_memory_cache maxG st)

/-- The insertion performed by `_download_graph_background`: insert only
if there is free space. -/
def background_download_insert {γ : Type} (maxG : ℕ) (k : String) (g : γ) (t : ℚ)
    (st : CacheMem γ) : CacheMem γ :=
  if st.length < maxG then cacheInsert k g t st else st

/-- Cache states reachable from the empty memory cache through the three
insertion paths of the code (disk promotion, synchronous download,
background download). -/
inductive CacheReachable {γ : Type} (maxG : ℕ) : CacheMem γ → Prop
  | empty : CacheReachable maxG []
  | promote (k : String) (g : γ) (t : ℚ) (st : CacheMem γ) :
      CacheReachable maxG st → CacheReachable maxG (memory_cache_put maxG k g t st)
  | syncDownload (k : String) (g : γ) (t : ℚ) (st : CacheMem γ) :
      CacheReachable maxG st → CacheReachable maxG (memory_cache_put maxG k g t st)
  | backgroundDownload (k : String) (g : γ) (t : ℚ) (st : CacheMem γ) :
      CacheReachable maxG st → CacheReachable maxG (background_download_insert maxG k g t st)


/-! ## Graph cache resolution (`GraphCache.get_graph`) -/

/-- Banker's rounding to an integer (Python `round`). -/
def pyRoundInt (q : ℚ) : ℤ :=
  let f := Int.floor q
  let r := q - f
  if r < 1 / 2 then f
  else if 1 / 2 < r then f + 1
  else if f % 2 = 0 then f else f + 1

/-- Python `round(x, 3)`. -/
def pyRound3 (q : ℚ) : ℚ := (pyRoundInt (q * 1000) : ℚ) / 1000

/-- `_generate_cache_key`, modelled structurally: the Python code renders
this tuple as the string `f"{lat}_{lon}_{km}km_{type}"`, and
`_get_nearby_graph` parses the two leading coordinates back out of the
string; the substring test `network_type not in cached_key` can only
match the trailing network-type component, since the other components
are made of digits, dots, dashes and `km`. -/
structure GCacheKey where
  lat : ℚ
  lon : ℚ
  distKm : ℤ
  networkType : String
deriving Repr, DecidableEq

/-- `_generate_cache_key(lat, lon, distance, network_type)`:
3-decimal-rounded coordinates, radius floor-divided to km, network
type. -/
def generate_cache_key (lat lon : ℚ) (distance : ℤ) (networkType : String) : GCacheKey :=
  { lat := pyRound3 lat, lon := pyRound3 lon,
    distKm := Int.fdiv distance 1000, networkType := networkType }

/-- The state read by one `get_graph` call: the memory cache in dict
insertion order, the disk cache, the in-progress set, and the outcome the
network fetch would have (`none` = the fetch raises). The insertions
`get_graph` performs on a miss are modelled in the `CacheMem` section
above; this structure is about which graph the call returns. -/
structure GetGraphState (γ : Type) where
  memory : List (GCacheKey × γ)
  disk : GCacheKey → Option γ
  inProgress : List GCacheKey
  network : Option γ

/-- The scan of `_get_nearby_graph`: running best `(graph, distance)`
accumulator over the memory cache, keeping the first strictly-smaller
distance under 50 km (`min_distance` starts at infinity, so the first
same-profile entry under 50 km always loads the accumulator). `geoDist`
is the geodesic distance in km between two (lat, lon) pairs, kept
abstract. -/
def nearbyFold {γ : Type} (geoDist : ℚ → ℚ → ℚ → ℚ → ℚ) (lat lon : ℚ)
    (ntype : String) :
    Option (γ × ℚ) → List (GCacheKey × γ) → Option (γ × ℚ)
  | acc, [] => acc
  | acc, (k, g) :: rest =>
    if k.networkType = ntype then
      let d := geoDist lat lon k.lat k.lon
      let acc2 := match acc with
        | none => if d < 50 then some (g, d) else none
        | some (g0, d0) => if d < d0 ∧ d < 50 then some (g, d) else some (g0, d0)
      nearbyFold geoDist lat lon ntype acc2 rest
    else nearbyFold geoDist lat lon ntype acc rest

/-- `_get_nearby_graph`: the best graph found by the scan, or `None`. -/
def get_nearby_graph {γ : Type} (geoDist : ℚ → ℚ → ℚ → ℚ → ℚ)
    (st : GetGraphState γ) (lat lon : ℚ) (ntype : String) : Option γ :=
  (nearbyFold geoDist lat lon ntype none st.memory).map (fun p => p.1)

/-- `get_graph`: memory hit, else disk hit, else — when the key is
already in progress — the nearby-graph fallback (whose `None` is passed
straight through), else a synchronous network fetch whose failure
re-raises. `.ok (some g)` = a graph is returned, `.ok none` = Python
returns `None`, `.error ()` = the call raises. -/
def get_graph {γ : Type} (geoDist : ℚ → ℚ → ℚ → ℚ → ℚ)
    (st : GetGraphState γ) (lat lon : ℚ) (distance : ℤ) (ntype : String) :
    Except Unit (Option γ) :=
  let key := generate_cache_key lat lon distance ntype
  match st.memory.find? (fun e => e.1 == key) with
  | some e => .ok (some e.2)
  | none =>
    match st.disk key with
    | some g => .ok (some g)
    | none =>
      if key ∈ st.inProgress then
        .ok (get_nearby_graph geoDist st lat lon ntype)
      else
        match st.network with
        | some g => .ok (some g)
        | none => .error ()

/-- Concrete state for the C5 counterexample: the requested key is in
progress, and nothing is cached anywhere. -/
def c5State : GetGraphState ℕ where
  memory := []
  disk := fun _ => none
  inProgress := [generate_cache_key 10 20 2000 "drive"]
  network := some 7

/-- Concrete state for the C5 witness: the requested key is in progress
and one same-profile graph sits in memory. -/
def c5WitnessState : GetGraphState ℕ where
  memory := [(generate_cache_key 10 (201 / 10) 2000 "drive", 42)]
  disk := fun _ => none
  inProgress := [generate_cache_key 10 20 2000 "drive"]
  network := some 7


/-! ## Matrix builder (`MatrixServices.precompute_distance_matrix`) -/

/-- Lookup in a shortest-path table `node ↦ (distance, path)`. -/
def distLookup (m : List (ℕ × ℚ × List ℕ)) (v : ℕ) : Option (ℚ × List ℕ) :=
  (m.find? (fun p => p.1 == v)).map (fun p => p.2)

/-- Insert-or-overwrite in a shortest-path table. -/
def distUpdate (m : List (ℕ × ℚ × List ℕ)) (v : ℕ) (d : ℚ) (pth : List ℕ) :
    List (ℕ × ℚ × List ℕ) :=
  if m.any (fun p => p.1 == v) then
    m.map (fun p => if p.1 == v then (v, d, pth) else p)
  else m ++ [(v, d, pth)]

/-- Relax a single directed edge. -/
def relaxEdge (m : List (ℕ × ℚ × List ℕ)) (e : ℕ × ℕ × EdgeData) :
    List (ℕ × ℚ × List ℕ) :=
  match distLookup m e.1 with
  | none => m
  | some (du, pu) =>
    let nd := du + e.2.2.length
    match distLookup m e.2.1 with
    | none => distUpdate m e.2.1 nd (pu ++ [e.2.1])
    | some (dv, _) => if nd < dv then distUpdate m e.2.1 nd (pu ++ [e.2.1]) else m

/-- One relaxation pass over every edge. -/
def relaxPass (g : OsmGraph) (m : List (ℕ × ℚ × List ℕ)) : List (ℕ × ℚ × List ℕ) :=
  g.edges.foldl relaxEdge m

/-- Denotation of `nx.single_source_dijkstra(graph, source, weight='length')`:
single-source shortest `length`-distances and predecessor paths to every
reachable node, computed here by `|nodes|` Bellman–Ford passes (the same
distances and reachable set as Dijkstra on nonnegative lengths; among
equal-length paths the representative may differ). A node absent from
the result is unreachable, exactly as a key missing from the Python
return value. -/
def single_source_dijkstra (g : OsmGraph) (s : ℕ) : List (ℕ × ℚ × List ℕ) :=
  Nat.rec [(s, 0, [s])] (fun _ m => relaxPass g m) g.nodes.length

/-- One cell of the matrix triple of `precompute_distance_matrix`:
`dist`/`time` are `none` for `float('inf')`. -/
structure MatrixEntry where
  dist : Option ℚ
  time : Option ℚ
  path : List ℕ
deriving Repr, DecidableEq

/-- `precompute_distance_matrix` at indices `(i, j)` of `nodes`: the
per-source Dijkstra branch fills cells only for targets present in the
Dijkstra result (unreached targets keep their `inf` initialisation —
there is no great-circle repair in this branch; that repair sits in the
dead `except` arm, reachable only if `single_source_dijkstra` itself
raises, which needs the source to be missing from the graph). The final
loop zeroes the diagonal. -/
def precompute_distance_matrix (g : OsmGraph) (nodes : List ℕ) (i j : ℕ) :
    MatrixEntry :=
  match nodes.get? i, nodes.get? j with
  | some src, some tgt =>
    if i = j then { dist := some 0, time := some 0, path := [src] }
    else
      match distLookup (single_source_dijkstra g src) tgt with
      | some (d, p) =>
        { dist := some d, time := some (calculate_realistic_travel_time g p), path := p }
      | none => { dist := none, time := none, path := [] }
  | _, _ => { dist := none, time := none, path := [] }

/-- Concrete graph for the C3 counterexample: two isolated nodes with
coordinates and no edge between them. -/
def c3Graph : OsmGraph where
  nodes := [100, 200]
  nodeY := fun n => if n == 100 then some 41 else if n == 200 then some 42 else none
  nodeX := fun n => if n == 100 then some 20 else if n == 200 then some 21 else none
  edges := []

/-! ## TSP solver (`MatrixServices.solve_tsp_optimized`) -/

/-- The three components of the tuple `precompute_distance_matrix`
returns. -/
inductive PyMatrixValue
  | distM (m : ℕ → ℕ → Option ℚ)
  | pathsM (p : ℕ → ℕ → List ℕ)
  | timesM (t : ℕ → ℕ → Option ℚ)

/-- `precompute_distance_matrix` as the Python 3-tuple it returns. -/
def precompute_distance_matrix_tuple (g : OsmGraph) (nodes : List ℕ) :
    List PyMatrixValue :=
  [.distM (fun i j => (precompute_distance_matrix g nodes i j).dist),
   .pathsM (fun i j => (precompute_distance_matrix g nodes i j).path),
   .timesM (fun i j => (precompute_distance_matrix g nodes i j).time)]

/-- Python tuple unpacking `a, b = t`: succeeds only on arity 2,
otherwise raises `ValueError`. -/
def pyUnpack2 {α : Type} : List α → Except String (α × α)
  | [a, b] => .ok (a, b)
  | _ => .error "ValueError: too many values to unpack (expected 2)"

/-- A successful TSP answer: the fields the nearest-neighbour loop would
emit. -/
structure TspSuccess where
  optimal_route : List String
  minimum_distance_km : ℚ
  estimated_travel_time_seconds : ℤ
  optimal_route_coordinates : List (ℚ × ℚ)

/-- The three result shapes of `solve_tsp_optimized`: the bare
`{'error': 'No valid locations provided'}` dict, the full error dict
built in the `except` arm (error message plus empty route, zero distance
and time), and a successful route. -/
inductive TspResult
  | noLocations
  | pyError (msg : String)
  | success (r : TspSuccess)

/-- One entry of the request's location list (every entry modelled here
carries `lat`/`lng`; `id` is the optional explicit identifier). -/
structure TspLocation where
  lat : ℚ
  lng : ℚ
  id : Option String

/-- `solve_tsp_optimized`. `nearest` is the denotation of
`ox.distance.nearest_nodes`; `rest` is the nearest-neighbour
continuation that would consume the two unpacked tuple components —
kept abstract because the unpacking of the 3-tuple into
`distance_matrix, paths_matrix` raises `ValueError` first, which the
blanket `except` turns into the error dict. -/
def solve_tsp_optimized (g : OsmGraph) (nearest : ℚ → ℚ → ℕ)
    (data : List TspLocation)
    (rest : PyMatrixValue × PyMatrixValue → TspSuccess) : TspResult :=
  if data.isEmpty then .noLocations
  else
    let nodes := data.map (fun l => nearest l.lat l.lng)
    match pyUnpack2 (precompute_distance_matrix_tuple g nodes) with
    | .ok pair => .success (rest pair)
    | .error e => .pyError e

/-- Concrete two-location request for the C4 failing input. -/
def c4Data : List TspLocation :=
  [{ lat := 4199 / 100, lng := 2143 / 100, id := none },
   { lat := 4199 / 100, lng := 2146 / 100, id := none }]


/-! ## PDP solver (`MatrixServices.solve_pdp_optimized`) -/

/-- What a route index names: index 0 is `Start`, indices `1..P` the
pickups in dict order, indices `P+1..P+D` the deliveries in dict order
(`nodes = [start_node] + pickup_nodes.values() + delivery_nodes.values()`
and the parallel `node_names` list). -/
inductive NodeKind
  | start
  | pickup (pkg : ℕ)
  | delivery (pkg : ℕ)
  | invalid
deriving Repr, DecidableEq

/-- The `node_names` association: the kind of route index `i` for pickup
package list `P` and delivery package list `D`. -/
def nodeKind (P D : List ℕ) (i : ℕ) : NodeKind :=
  if i = 0 then .start
  else
    match P.get? (i - 1) with
    | some pkg => .pickup pkg
    | none =>
      match D.get? (i - 1 - P.length) with
      | some pkg => .delivery pkg
      | none => .invalid

/-- Index of `Pickup_<pkg>` in the node list. -/
def pickupIdx (P : List ℕ) (pkg : ℕ) : ℕ := 1 + P.indexOf pkg

/-- Index of `Delivery_<pkg>` in the node list. -/
def deliveryIdx (P D : List ℕ) (pkg : ℕ) : ℕ := 1 + P.length + D.indexOf pkg

/-- The precedence filter of the greedy loop: a delivery whose package
has no visited pickup is skipped (`if pkg_id not in visited_pickups:
continue`). -/
def pdpBlocked (P D : List ℕ) (vp : List ℕ) (i : ℕ) : Bool :=
  match nodeKind P D i with
  | .delivery pkg => !(vp.contains pkg)
  | _ => false

/-- The inner `for node_idx in unvisited` loop: first unblocked index at
a finite distance strictly below the running minimum (the minimum starts
at infinity, so an infinite `d` never wins). The unvisited set of small
ints iterates in ascending order, which is how the loop's callers keep
the list. -/
def pdpSelect (d : ℕ → ℕ → Option ℚ) (P D : List ℕ) (vp : List ℕ) (cur : ℕ) :
    Option (ℕ × ℚ) → List ℕ → Option (ℕ × ℚ)
  | acc, [] => acc
  | acc, i :: rest =>
    if pdpBlocked P D vp i then pdpSelect d P D vp cur acc rest
    else
      match d cur i with
      | none => pdpSelect d P D vp cur acc rest
      | some v =>
        match acc with
        | none => pdpSelect d P D vp cur (some (i, v)) rest
        | some (j, m) =>
          if v < m then pdpSelect d P D vp cur (some (i, v)) rest
          else pdpSelect d P D vp cur (some (j, m)) rest

/-- Python `min` over a nonempty collection of naturals. -/
def listMinD : ℕ → List ℕ → ℕ
  | a, [] => a
  | a, b :: rest => listMinD (min a b) rest

/-- One iteration's choice: the greedy pick when the filtered scan found
one, else the forced `min(unvisited)` of the fallback step. -/
def pdpChoice (d : ℕ → ℕ → Option ℚ) (P D vp : List ℕ) (cur u : ℕ)
    (us : List ℕ) : ℕ :=
  match pdpSelect d P D vp cur none (u :: us) with
  | some p => p.1
  | none => listMinD u us

/-- `visited_pickups` update: a chosen pickup records its package. -/
def pdpVisit (P D : List ℕ) (vp : List ℕ) (nd : ℕ) : List ℕ :=
  match nodeKind P D nd with
  | .pickup pkg => pkg :: vp
  | _ => vp

/-- The `while unvisited` loop of `solve_pdp_optimized`, reduced to the
data the precedence claim is about: the chosen route order. Each
iteration appends the chosen index to the route, removes it from
`unvisited`, and records a chosen pickup's package. One unit of fuel per
remaining index makes the recursion structural; the loop runs until
`unvisited` is empty. -/
def pdpLoop (d : ℕ → ℕ → Option ℚ) (P D : List ℕ) :
    ℕ → ℕ → List ℕ → List ℕ → List ℕ → List ℕ
  | 0, _, _, _, route => route
  | fuel + 1, cur, unvisited, vp, route =>
    match unvisited with
    | [] => route
    | u :: us =>
      let nd := pdpChoice d P D vp cur u us
      pdpLoop d P D fuel nd ((u :: us).erase nd) (pdpVisit P D vp nd) (route ++ [nd])

/-- The route order emitted by `solve_pdp_optimized` for pickup packages
`P`, delivery packages `D` and the precomputed distance matrix `d`
(`none` = infinite): start at index 0 with every other index unvisited
and no pickups visited. -/
def solve_pdp_route (d : ℕ → ℕ → Option ℚ) (P D : List ℕ) : List ℕ :=
  pdpLoop d P D (P.length + D.length) 0 (List.range' 1 (P.length + D.length)) [] [0]

/-- Routes in which every delivery whose package also has a pickup
appears strictly after that pickup. -/
def RouteGood (P D : List ℕ) (r : List ℕ) : Prop :=
  ∀ pkg k i, r.get? k = some i → nodeKind P D i = .delivery pkg → pkg ∈ P →
    ∃ j, j < k ∧ r.get? j = some (pickupIdx P pkg)


/-! ## Isochrone builder (`IsochroneServices.calculate_isochrone_cached`)

The geometry callouts to shapely/GEOS are modelled from their documented
algorithms: `convex_hull` as a Graham/monotone-chain hull whose exterior
ring runs counter-clockwise from the lexicographically smallest vertex,
and `simplify(tol)` as Douglas–Peucker on the closed exterior ring at the
given tolerance, with exact rational arithmetic in place of doubles
(distance comparisons are carried out on squares, which is equivalent). -/

/-- A 2-D point `(x, y)` in degrees (`x` = longitude). -/
abbrev Pt : Type := ℚ × ℚ

/-- Cross product of `oa` and `ob`. -/
def cross2 (o a b : Pt) : ℚ :=
  (a.1 - o.1) * (b.2 - o.2) - (a.2 - o.2) * (b.1 - o.1)

/-- Strict-then-tie lexicographic order on points. -/
def lexLe (p q : Pt) : Bool :=
  decide (p.1 < q.1) || (decide (p.1 = q.1) && decide (p.2 ≤ q.2))

/-- Insertion sort by `lexLe`. -/
def insertLex (p : Pt) : List Pt → List Pt
  | [] => [p]
  | q :: rest => if lexLe p q then p :: q :: rest else q :: insertLex p rest

def sortLex : List Pt → List Pt
  | [] => []
  | p :: rest => insertLex p (sortLex rest)

/-- Push a point onto a hull chain (stack, most recent first), popping
while the last two points and the new one fail to make a strict left
turn. -/
def chainPush (p : Pt) : List Pt → List Pt
  | b :: a :: rest =>
    if cross2 a b p ≤ 0 then chainPush p (a :: rest) else p :: b :: a :: rest
  | l => p :: l

/-- One monotone chain over a point sequence. -/
def buildChain (pts : List Pt) : List Pt :=
  (pts.foldl (fun st p => chainPush p st) []).reverse

/-- The convex hull's exterior ring, counter-clockwise, starting at the
lexicographically smallest point, without the closing duplicate. -/
def convexHullRing (pts : List Pt) : List Pt :=
  let s := sortLex pts
  (buildChain s).dropLast ++ (buildChain s.reverse).dropLast

/-- Squared distance from point `p` to the segment `a`–`b` (GEOS
`Distance::pointToSegment`, squared). -/
def distSqPointSeg (p a b : Pt) : ℚ :=
  let dx := b.1 - a.1
  let dy := b.2 - a.2
  let len2 := dx * dx + dy * dy
  if len2 = 0 then (p.1 - a.1) * (p.1 - a.1) + (p.2 - a.2) * (p.2 - a.2)
  else
    let r := ((p.1 - a.1) * dx + (p.2 - a.2) * dy) / len2
    if r ≤ 0 then (p.1 - a.1) * (p.1 - a.1) + (p.2 - a.2) * (p.2 - a.2)
    else if 1 ≤ r then (p.1 - b.1) * (p.1 - b.1) + (p.2 - b.2) * (p.2 - b.2)
    else
      let s := (a.2 - p.2) * dx - (a.1 - p.1) * dy
      s * s / len2

/-- The farthest interior point of section `(i, j)` from the segment
`pts[i]`–`pts[j]`: first index attaining the strict maximum (GEOS
`findFurthestPoint`). -/
def dpFarthest (pts : List Pt) (i j : ℕ) : Option (ℕ × ℚ) :=
  let a := pts.getD i (0, 0)
  let b := pts.getD j (0, 0)
  (List.range' (i + 1) (j - i - 1)).foldl
    (fun acc k =>
      let dsq := distSqPointSeg (pts.getD k (0, 0)) a b
      match acc with
      | none => some (k, dsq)
      | some (k0, d0) => if d0 < dsq then some (k, dsq) else some (k0, d0))
    none

/-- Douglas–Peucker on the section `(i, j)`: drop the interior when its
farthest point is within tolerance, else split at it. Returns the kept
indices in order; `fuel ≥ j - i` makes the recursion structural. -/
def dpSection (pts : List Pt) (tolSq : ℚ) : ℕ → ℕ → ℕ → List ℕ
  | 0, i, j => [i, j]
  | fuel + 1, i, j =>
    if j ≤ i + 1 then [i, j]
    else
      match dpFarthest pts i j with
      | none => [i, j]
      | some (k, dsq) =>
        if dsq ≤ tolSq then [i, j]
        else dpSection pts tolSq fuel i k ++ (dpSection pts tolSq fuel k j).tail

/-- Douglas–Peucker over a closed exterior ring (first point = last). -/
def dpSimplifyRing (tolSq : ℚ) (ring : List Pt) : List Pt :=
  (dpSection ring tolSq ring.length 0 (ring.length - 1)).map
    (fun k => ring.getD k (0, 0))

/-- Twice the signed shoelace sum, cyclic, `p0` closing the ring. -/
def shoelaceSum (p0 : Pt) : List Pt → ℚ
  | [] => 0
  | [p] => p.1 * p0.2 - p0.1 * p.2
  | p :: q :: rest => (p.1 * q.2 - q.1 * p.2) + shoelaceSum p0 (q :: rest)

/-- Kernel-computable absolute value on `ℚ`. -/
def qAbs (q : ℚ) : ℚ := if q < 0 then -q else q

/-- Shapely `polygon.area` of the (open) ring. -/
def polyArea (ring : List Pt) : ℚ :=
  match ring with
  | [] => 0
  | p :: _ => qAbs (shoelaceSum p ring) / 2

/-- A street graph as the isochrone builder sees it: node coordinates
and directed edges weighted by `travel_time` seconds. -/
structure IsoGraph where
  nodes : List ℕ
  nodeX : ℕ → Option ℚ
  nodeY : ℕ → Option ℚ
  edges : List (ℕ × ℕ × ℚ)

/-- Relax one travel-time edge. -/
def isoRelaxEdge (m : List (ℕ × ℚ)) (e : ℕ × ℕ × ℚ) : List (ℕ × ℚ) :=
  match (m.find? (fun p => p.1 == e.1)).map (fun p => p.2) with
  | none => m
  | some du =>
    let nd := du + e.2.2
    match (m.find? (fun p => p.1 == e.2.1)).map (fun p => p.2) with
    | none => m ++ [(e.2.1, nd)]
    | some dv =>
      if nd < dv then m.map (fun p => if p.1 == e.2.1 then (e.2.1, nd) else p) else m

/-- Denotation of the code's shortest-travel-time step: single-source
shortest `travel_time` distances by `|nodes|` relaxation passes. -/
def isoShortestTimes (g : IsoGraph) (s : ℕ) : List (ℕ × ℚ) :=
  Nat.rec [(s, 0)] (fun _ m => g.edges.foldl isoRelaxEdge m) g.nodes.length

/-- The `times` dict: both the `cutoff`-limited Dijkstra (large graphs)
and the ego-graph-then-Dijkstra variant (small graphs) yield the nodes
within `maxT` with their shortest travel times. -/
def isoTimes (g : IsoGraph) (origin : ℕ) (maxT : ℚ) : List (ℕ × ℚ) :=
  (isoShortestTimes g origin).filter (fun p => decide (p.2 ≤ maxT))

/-- `reachable_nodes` for one threshold. -/
def reachableNodes (times : List (ℕ × ℚ)) (t : ℚ) : List ℕ :=
  (times.filter (fun p => decide (p.2 ≤ t))).map (fun p => p.1)

/-- Coordinates of the reachable nodes (`Point(x, y)` per node with
coordinates, in order). -/
def nodePoints (g : IsoGraph) (ns : List ℕ) : List Pt :=
  ns.filterMap (fun n =>
    match g.nodeX n, g.nodeY n with
    | some x, some y => some (x, y)
    | _, _ => none)

/-- Python `round(x, 2)`. -/
def round2 (q : ℚ) : ℚ := (pyRoundInt (q * 100) : ℚ) / 100

/-- One emitted isochrone record. -/
structure IsoEntry where
  travel_time_minutes : ℚ
  area_km2 : ℚ
  polygon : List Pt
  reachable_nodes : ℕ
deriving Repr, DecidableEq

/-- `convex_hull.simplify(tolerance / 111320)` guarded by
`if simplify_tolerance > 0`. -/
def simplifiedRing (tolerance : ℚ) (ring : List Pt) : List Pt :=
  if 0 < tolerance then
    dpSimplifyRing ((tolerance / 111320) * (tolerance / 111320)) ring
  else ring

/-- The per-threshold body of the isochrone loop: skip thresholds with
fewer than 3 reachable nodes or points, take the closed convex-hull
ring, simplify it when the tolerance is positive, reject degenerate
(non-`Polygon`) geometry, and report the simplified hull's area in km²
via the 111.32²-per-degree² constant, rounded to 2 decimals. -/
def isoEntryFor (g : IsoGraph) (times : List (ℕ × ℚ)) (tolerance : ℚ)
    (tsec : ℚ) : Option IsoEntry :=
  if (reachableNodes times tsec).length < 3 then none
  else if (nodePoints g (reachableNodes times tsec)).length < 3 then none
  else if (simplifiedRing tolerance
      (convexHullRing (nodePoints g (reachableNodes times tsec)) ++
        [(convexHullRing (nodePoints g (reachableNodes times tsec))).headD (0, 0)])).length < 4
    then none
  else
    some { travel_time_minutes := tsec / 60,
           area_km2 := round2 (polyArea
             (simplifiedRing tolerance
               (convexHullRing (nodePoints g (reachableNodes times tsec)) ++
                 [(convexHullRing (nodePoints g (reachableNodes times tsec))).headD (0, 0)])).dropLast *
             (11132 / 100) * (11132 / 100)),
           polygon := simplifiedRing tolerance
             (convexHullRing (nodePoints g (reachableNodes times tsec)) ++
               [(convexHullRing (nodePoints g (reachableNodes times tsec))).headD (0, 0)]),
           reachable_nodes := (reachableNodes times tsec).length }

/-- Insertion sort on rationals (`sorted(travel_times_seconds)`). -/
def insertQ (a : ℚ) : List ℚ → List ℚ
  | [] => [a]
  | b :: rest => if a ≤ b then a :: b :: rest else b :: insertQ a rest

def sortQ : List ℚ → List ℚ
  | [] => []
  | a :: rest => insertQ a (sortQ rest)

/-- Python `max` over a list with a seed. -/
def listMaxQ : ℚ → List ℚ → ℚ
  | a, [] => a
  | a, b :: rest => listMaxQ (pyMax a b) rest

/-- `calculate_isochrone_cached`, from the point where the graph and the
origin node are fixed: convert the minute cutoffs to seconds, compute
the shortest-time dict limited by the largest cutoff, and build one
polygon record per sorted cutoff that survives the degeneracy checks. -/
def calculate_isochrone_cached (g : IsoGraph) (origin : ℕ)
    (travel_times : List ℚ) (tolerance : ℚ) : List IsoEntry :=
  let tsecs := travel_times.map (fun t => t * 60)
  let maxT := match tsecs with
    | [] => 0
    | a :: rest => listMaxQ a rest
  let times := isoTimes g origin maxT
  (sortQ tsecs).filterMap (isoEntryFor g times tolerance)

/-- The concrete graph of the C7 counterexample: origin `0` at (0,0),
nodes `1` (2,0) and `2` (1,0.0015) ten seconds away, and node `3`
(2.01,0.0001) ninety seconds away. -/
def c7Graph : IsoGraph where
  nodes := [0, 1, 2, 3]
  nodeX := fun n =>
    if n == 0 then some 0 else if n == 1 then some 2
    else if n == 2 then some 1 else if n == 3 then some (201 / 100) else none
  nodeY := fun n =>
    if n == 0 then some 0 else if n == 1 then some 0
    else if n == 2 then some (15 / 10000)
    else if n == 3 then some (1 / 10000) else none
  edges := [(0, 1, 10), (0, 2, 10), (0, 3, 90)]

/-! ## Theorems -/







/-! ### C2: order of congestion factor, intersection penalty and overhead -/

theorem edgeOk_facts {g : OsmGraph} {u v : ℕ} (h : edgeOk g u v = true) :
    ∃ e, get_edge_data g u v = some e ∧ 0 ≤ e.length ∧
      0 ≤ edge_time e ∧ (0 < e.length → 0 < edge_time e) := by
  unfold edgeOk at h
  cases he : get_edge_data g u v with
  | none => rw [he] at h; cases h
  | some e =>
    rw [he] at h
    dsimp only at h
    refine ⟨e, rfl, ?_⟩
    cases hs : edge_speed_kph e with
    | none => rw [hs] at h; cases h
    | some s =>
      rw [hs] at h
      simp only [Bool.and_eq_true, decide_eq_true_eq] at h
      obtain ⟨hs0, hl0⟩ := h
      have hspd : (0 : ℚ) < s * 1000 / 3600 := by positivity
      have htime : edge_time e = e.length / (s * 1000 / 3600) := by
        unfold edge_time
        rw [hs]
        dsimp only
        rw [if_neg (ne_of_gt hs0)]
      refine ⟨hl0, ?_, ?_⟩
      · rw [htime]; exact div_nonneg hl0 (le_of_lt hspd)
      · intro hl; rw [htime]; exact div_pos hl hspd

theorem travel_time_core_pos (g : OsmGraph) :
    ∀ p : List ℕ, pathOk g p = true →
      0 ≤ (travel_time_core g p).1 ∧ 0 ≤ (travel_time_core g p).2 ∧
        (0 < (travel_time_core g p).2 → 0 < (travel_time_core g p).1)
  | [] => by intro _; simp [travel_time_core]
  | [u] => by intro _; simp [travel_time_core]
  | u :: v :: rest => by
    intro hok
    unfold pathOk at hok
    simp only [Bool.and_eq_true] at hok
    obtain ⟨h1, hrest⟩ := hok
    obtain ⟨ht1, ht2, ht3⟩ := travel_time_core_pos g (v :: rest) hrest
    obtain ⟨e, he, hl, hte, htp⟩ := edgeOk_facts h1
    have hcore : travel_time_core g (u :: v :: rest) =
        (edge_time e + (travel_time_core g (v :: rest)).1,
         e.length + (travel_time_core g (v :: rest)).2) := by
      conv_lhs => rw [travel_time_core]
      rw [he]
    rw [hcore]
    refine ⟨add_nonneg hte ht1, add_nonneg hl ht2, ?_⟩
    intro hpos
    rcases lt_or_eq_of_le hl with hl' | hl'
    · exact add_pos_of_pos_of_nonneg (htp hl') ht1
    · have : 0 < (travel_time_core g (v :: rest)).2 := by
        rw [← hl'] at hpos
        simpa using hpos
      exact add_pos_of_nonneg_of_pos hte (ht3 this)

/-- Claim C2, counterexample: on a two-edge residential path the code
yields 287 s while the spec's ordering (penalty added before the 1.4
factor) yields 293 s, so the claimed formula is not the one computed. -/
theorem travel_time_order_counterexample :
    calculate_realistic_travel_time c2Graph [0, 1, 2] = 287 ∧
      claimed_travel_time c2Graph [0, 1, 2] = 293 ∧
      calculate_realistic_travel_time c2Graph [0, 1, 2] ≠
        claimed_travel_time c2Graph [0, 1, 2] := by
  refine ⟨by decide, by decide, by decide⟩

/-- Claim C2 as amended: the Matrix Builder resolves each edge's speed as
the code does (numeric maxspeed, "NN mph" × 1.60934, else the highway
table with default 50), sums per-edge times `length/(speed·1000/3600)`,
multiplies that per-edge total by the congestion factor 1.4, and then
adds the 15 s-per-interior-node intersection penalty and the 20 s
overhead unscaled (whereas the claim said penalty first, then × 1.4,
then + 20). Stated for paths whose edges are all present with positive
resolvable speeds and nonnegative lengths. -/
theorem travel_time_order_amended (g : OsmGraph) (path : List ℕ)
    (h2 : 2 ≤ path.length) (hok : pathOk g path = true) :
    calculate_realistic_travel_time g path = amended_travel_time g path := by
  obtain ⟨ht1, ht2, ht3⟩ := travel_time_core_pos g path hok
  unfold calculate_realistic_travel_time amended_travel_time
  rw [if_neg (by omega)]
  have hif : (if (travel_time_core g path).1 = 0 ∧ 0 < (travel_time_core g path).2
      then (travel_time_core g path).2 / (25 * 1000 / 3600)
      else (travel_time_core g path).1) = (travel_time_core g path).1 := by
    split
    · next hcond =>
        obtain ⟨hz, hp⟩ := hcond
        exact absurd (ht3 hp) (by rw [hz]; exact lt_irrefl 0)
    · rfl
  have hmax : pyMax 0 (((((path.length : ℤ) - 2 : ℤ)) : ℚ) * 15) =
      15 * ((path.length : ℚ) - 2) := by
    unfold pyMax
    rw [if_pos]
    · push_cast
      ring
    · have h0 : (2 : ℚ) ≤ (path.length : ℚ) := by exact_mod_cast h2
      have h1 : (0 : ℚ) ≤ ((path.length : ℚ) - 2) := by linarith
      push_cast
      positivity
  dsimp only
  rw [hif, hmax]
  ring

/-- Witness for `travel_time_order_amended` at the concrete two-edge
path. -/
theorem travel_time_order_amended_witness :
    calculate_realistic_travel_time c2Graph [0, 1, 2] =
      amended_travel_time c2Graph [0, 1, 2] :=
  travel_time_order_amended c2Graph [0, 1, 2] (by decide) (by decide)

/-! ### C9: transport-mode normalization -/

/-- Claim C9: transport-mode normalization is idempotent — whenever
`validate_transport_mode` accepts a mode and returns a canonical mode, it
maps that canonical mode to itself; `"car"` normalizes to the driving
profile; and the unknown mode `"ufo"` is rejected, surfacing in the
route handler as a 400 response enumerating the supported modes. -/
theorem transport_mode_normalization (m c : String) :
    (validate_transport_mode m = .ok c → validate_transport_mode c = .ok c) ∧
      validate_transport_mode "car" = .ok "driving" ∧
      handler_validate_mode "ufo" =
        .error { status := 400, supported_modes := ["driving", "foot", "bike"] } := by
  refine ⟨?_, by rfl, by rfl⟩
  intro h
  have hc : c ∈ osrm_modes := by
    unfold validate_transport_mode at h
    by_cases hm : m = ""
    · rw [if_pos hm] at h
      injection h with h
      rw [← h]
      decide
    · rw [if_neg hm] at h
      dsimp only at h
      split at h
      · next hmem =>
          injection h with h
          rw [← h]
          exact hmem
      · cases h
  have : c = "driving" ∨ c = "foot" ∨ c = "bike" := by
    simpa [osrm_modes] using hc
  rcases this with rfl | rfl | rfl
  · rfl
  · rfl
  · rfl

/-- Witness for `transport_mode_normalization`: the implication applied
at the accepted alias `"car"`. -/
theorem transport_mode_normalization_witness :
    validate_transport_mode "driving" = .ok "driving" :=
  (transport_mode_normalization "car" "driving").1 (by rfl)

/-! ### C8 and C10: usage-tracker persistence and frame conditions -/

/-- Claim C8: with the persistence port functioning (`logOk`,
`createOk`), an analytics record is persisted iff the status code is
below 400 and an authenticated identity is present; the per-API
extraction outcome neither fails the request nor prevents the base
usage record, which is persisted exactly when an identity is present. -/
theorem analytics_persistence_contract {β : Type} (jwtUser : Option ℕ)
    (extractOk : Bool) (response : PyResponse β) :
    ((track_usage jwtUser true extractOk true response).analyticsRecord.isSome = true ↔
        (response_status response < 400 ∧ jwtUser.isSome = true)) ∧
      (track_usage jwtUser true extractOk true response).usagePersisted = jwtUser.isSome ∧
      (track_usage jwtUser true extractOk true response).returned = response := by
  cases jwtUser with
  | none => simp [track_usage]
  | some u =>
    by_cases hs : response_status response < 400
    · simp [track_usage, hs]
    · simp [track_usage, hs]

/-- Claim C10: the wrapper returns the handler's response unchanged for
every outcome of JWT verification, usage logging, analytics extraction
and analytics persistence. -/
theorem track_usage_returns_handler_response {β : Type} (jwtUser : Option ℕ)
    (logOk extractOk createOk : Bool) (response : PyResponse β) :
    (track_usage jwtUser logOk extractOk createOk response).returned = response := by
  cases jwtUser with
  | none => simp [track_usage]
  | some u =>
    by_cases hs : response_status response < 400 <;>
      cases logOk <;> cases createOk <;> simp [track_usage, hs]

/-! ### C6: LRU bound of the memory cache -/

theorem lruAccum_mem {γ : Type} :
    ∀ (st : CacheMem γ) (k : String) (t : ℚ),
      lruAccum (k, t) st = k ∨ lruAccum (k, t) st ∈ st.map (fun e => e.1)
  | [], k, t => Or.inl rfl
  | (k2, g2, t2) :: rest, k, t => by
    unfold lruAccum
    by_cases h : t2 < t
    · rw [if_pos h]
      rcases lruAccum_mem rest k2 t2 with h' | h'
      · right; rw [h']; simp
      · right; simp [h']
    · rw [if_neg h]
      rcases lruAccum_mem rest k t with h' | h'
      · left; exact h'
      · right; simp [h']

theorem lruKey_mem {γ : Type} {st : CacheMem γ} {k : String}
    (h : lruKey st = some k) : k ∈ st.map (fun e => e.1) := by
  cases st with
  | nil => cases h
  | cons e rest =>
    obtain ⟨k1, g1, t1⟩ := e
    unfold lruKey at h
    injection h with h
    rcases lruAccum_mem rest k1 t1 with h' | h'
    · rw [← h, h']; simp
    · rw [← h]; simp [h']

theorem removeKey_length_lt {γ : Type} {st : CacheMem γ} {k : String}
    (h : k ∈ st.map (fun e => e.1)) : (removeKey k st).length < st.length := by
  induction st with
  | nil => simp at h
  | cons e rest ih =>
    unfold removeKey at ih ⊢
    by_cases he : e.1 = k
    · simp only [List.filter_cons, he]
      have : (k == k) = true := by simp
      simp only [this, Bool.not_true]
      calc (List.filter (fun e => !(e.1 == k)) rest).length ≤ rest.length :=
            List.length_filter_le _ _
        _ < (e :: rest).length := by simp
    · simp only [List.map_cons, List.mem_cons] at h
      rcases h with h | h
      · exact absurd h.symm he
      · have hone : (e.1 == k) = false := by simp [he]
        simp only [List.filter_cons, hone, Bool.not_false]
        simpa using ih h

theorem cacheInsert_length {γ : Type} (k : String) (g : γ) (t : ℚ)
    (st : CacheMem γ) : (cacheInsert k g t st).length ≤ st.length + 1 := by
  unfold cacheInsert
  split
  · simp
  · simp

theorem manage_memory_cache_length {γ : Type} (maxG : ℕ) (hmax : 1 ≤ maxG)
    (st : CacheMem γ) (hlen : st.length ≤ maxG) :
    (manage_memory_cache maxG st).length + 1 ≤ maxG := by
  unfold manage_memory_cache
  split
  · next hge =>
      have hlen' : st.length = maxG := le_antisymm hlen hge
      have hne : st ≠ [] := by
        intro h
        rw [h] at hlen'
        simp at hlen'
        omega
      cases hst : st with
      | nil => exact absurd hst hne
      | cons e rest =>
        obtain ⟨k1, g1, t1⟩ := e
        simp only [lruKey]
        have hk : lruAccum (k1, t1) rest ∈ ((k1, g1, t1) :: rest).map (fun e => e.1) := by
          rcases lruAccum_mem rest k1 t1 with h' | h'
          · rw [h']; simp
          · simp [h']
        have := @removeKey_length_lt γ ((k1, g1, t1) :: rest) _ hk
        rw [← hst] at this ⊢
        omega
  · next hlt =>
      omega

/-- Claim C6: starting from the empty memory cache, every state reachable
through the three insertion paths of `GraphCache` (disk promotion,
synchronous download, background download) holds at most
`max_memory_graphs` graphs, for any positive bound (default 5). -/
theorem cache_lru_bound {γ : Type} (maxG : ℕ) (st : CacheMem γ)
    (hmax : 1 ≤ maxG) (hreach : CacheReachable maxG st) :
    st.length ≤ maxG := by
  induction hreach with
  | empty => simp
  | promote k g t st' _ ih =>
    have h1 := manage_memory_cache_length maxG hmax st' ih
    have h2 := cacheInsert_length k g t (manage_memory_cache maxG st')
    unfold memory_cache_put
    omega
  | syncDownload k g t st' _ ih =>
    have h1 := manage_memory_cache_length maxG hmax st' ih
    have h2 := cacheInsert_length k g t (manage_memory_cache maxG st')
    unfold memory_cache_put
    omega
  | backgroundDownload k g t st' _ ih =>
    unfold background_download_insert
    split
    · next hlt =>
        have h2 := cacheInsert_length k g t st'
        omega
    · exact ih

/-- Witness for `cache_lru_bound`: one synchronous download into the
empty cache with the default bound 5. -/
theorem cache_lru_bound_witness :
    (memory_cache_put (γ := ℕ) 5 "41.123_20.802_2km_drive" 0 0 []).length ≤ 5 :=
  cache_lru_bound 5 _ (by decide)
    (CacheReachable.syncDownload "41.123_20.802_2km_drive" 0 0 [] CacheReachable.empty)

/-! ### C5: `get_graph` resolution and the in-progress fallback -/

theorem nearbyFold_some_facts {γ : Type} (geoDist : ℚ → ℚ → ℚ → ℚ → ℚ)
    (lat lon : ℚ) (ntype : String) :
    ∀ (l : List (GCacheKey × γ)) (g0 : γ) (d0 : ℚ), d0 < 50 →
      ∃ g d, nearbyFold geoDist lat lon ntype (some (g0, d0)) l = some (g, d) ∧
        d < 50 ∧ d ≤ d0 ∧
        ((g = g0 ∧ d = d0) ∨ ∃ e ∈ l, e.1.networkType = ntype ∧ e.2 = g ∧
          geoDist lat lon e.1.lat e.1.lon = d) ∧
        (∀ e2 ∈ l, e2.1.networkType = ntype → d ≤ geoDist lat lon e2.1.lat e2.1.lon)
  | [], g0, d0, h0 => ⟨g0, d0, rfl, h0, le_refl _, Or.inl ⟨rfl, rfl⟩, by simp⟩
  | (k, g1) :: rest, g0, d0, h0 => by
    by_cases hq : k.networkType = ntype
    · set d1 := geoDist lat lon k.lat k.lon with hd1
      by_cases hupd : d1 < d0 ∧ d1 < 50
      · obtain ⟨g, d, hfold, hlt, hle, hsrc, hmin⟩ :=
          nearbyFold_some_facts geoDist lat lon ntype rest g1 d1 hupd.2
        refine ⟨g, d, ?_, hlt, le_trans hle (le_of_lt hupd.1), ?_, ?_⟩
        · rw [nearbyFold, if_pos hq]
          dsimp only
          rw [if_pos hupd]
          exact hfold
        · rcases hsrc with ⟨hg, hd⟩ | ⟨e, he, hq2, hg2, hd2⟩
          · exact Or.inr ⟨(k, g1), by simp, hq, by simp [hg], by rw [← hd1, hd]⟩
          · exact Or.inr ⟨e, by simp [he], hq2, hg2, hd2⟩
        · intro e2 he2 hq2
          rcases List.mem_cons.mp he2 with rfl | he2
          · exact hle
          · exact hmin e2 he2 hq2
      · obtain ⟨g, d, hfold, hlt, hle, hsrc, hmin⟩ :=
          nearbyFold_some_facts geoDist lat lon ntype rest g0 d0 h0
        refine ⟨g, d, ?_, hlt, hle, ?_, ?_⟩
        · rw [nearbyFold, if_pos hq]
          dsimp only
          rw [if_neg hupd]
          exact hfold
        · rcases hsrc with h | ⟨e, he, hq2, hg2, hd2⟩
          · exact Or.inl h
          · exact Or.inr ⟨e, by simp [he], hq2, hg2, hd2⟩
        · intro e2 he2 hq2
          rcases List.mem_cons.mp he2 with rfl | he2
          · rcases not_and_or.mp hupd with h | h
            · exact le_trans hle (le_of_not_lt h)
            · exact le_of_lt (lt_of_lt_of_le hlt (le_of_not_lt h))
          · exact hmin e2 he2 hq2
    · obtain ⟨g, d, hfold, hlt, hle, hsrc, hmin⟩ :=
        nearbyFold_some_facts geoDist lat lon ntype rest g0 d0 h0
      refine ⟨g, d, ?_, hlt, hle, ?_, ?_⟩
      · rw [nearbyFold, if_neg hq]
        exact hfold
      · rcases hsrc with h | ⟨e, he, hq2, hg2, hd2⟩
        · exact Or.inl h
        · exact Or.inr ⟨e, by simp [he], hq2, hg2, hd2⟩
      · intro e2 he2 hq2
        rcases List.mem_cons.mp he2 with rfl | he2
        · exact absurd hq2 hq
        · exact hmin e2 he2 hq2

theorem nearbyFold_none_facts {γ : Type} (geoDist : ℚ → ℚ → ℚ → ℚ → ℚ)
    (lat lon : ℚ) (ntype : String) :
    ∀ l : List (GCacheKey × γ),
      (nearbyFold geoDist lat lon ntype none l = none ∧
        ∀ e ∈ l, e.1.networkType = ntype → ¬ geoDist lat lon e.1.lat e.1.lon < 50) ∨
      (∃ g d, nearbyFold geoDist lat lon ntype none l = some (g, d) ∧ d < 50 ∧
        (∃ e ∈ l, e.1.networkType = ntype ∧ e.2 = g ∧
          geoDist lat lon e.1.lat e.1.lon = d) ∧
        (∀ e2 ∈ l, e2.1.networkType = ntype → d ≤ geoDist lat lon e2.1.lat e2.1.lon))
  | [] => Or.inl ⟨rfl, by simp⟩
  | (k, g1) :: rest => by
    by_cases hq : k.networkType = ntype
    · set d1 := geoDist lat lon k.lat k.lon with hd1
      by_cases h1 : d1 < 50
      · obtain ⟨g, d, hfold, hlt, hle, hsrc, hmin⟩ :=
          nearbyFold_some_facts geoDist lat lon ntype rest g1 d1 h1
        refine Or.inr ⟨g, d, ?_, hlt, ?_, ?_⟩
        · rw [nearbyFold, if_pos hq]
          dsimp only
          rw [if_pos h1]
          exact hfold
        · rcases hsrc with ⟨hg, hd⟩ | ⟨e, he, hq2, hg2, hd2⟩
          · exact ⟨(k, g1), by simp, hq, by simp [hg], by rw [← hd1, hd]⟩
          · exact ⟨e, by simp [he], hq2, hg2, hd2⟩
        · intro e2 he2 hq2
          rcases List.mem_cons.mp he2 with rfl | he2
          · exact hle
          · exact hmin e2 he2 hq2
      · rcases nearbyFold_none_facts geoDist lat lon ntype rest with ⟨hfold, hall⟩ |
          ⟨g, d, hfold, hlt, hsrc, hmin⟩
        · refine Or.inl ⟨?_, ?_⟩
          · rw [nearbyFold, if_pos hq]
            dsimp only
            rw [if_neg h1]
            exact hfold
          · intro e he hq2
            rcases List.mem_cons.mp he with rfl | he
            · exact h1
            · exact hall e he hq2
        · refine Or.inr ⟨g, d, ?_, hlt, ?_, ?_⟩
          · rw [nearbyFold, if_pos hq]
            dsimp only
            rw [if_neg h1]
            exact hfold
          · obtain ⟨e, he, hq2, hg2, hd2⟩ := hsrc
            exact ⟨e, by simp [he], hq2, hg2, hd2⟩
          · intro e2 he2 hq2
            rcases List.mem_cons.mp he2 with rfl | he2
            · exact le_of_lt (lt_of_lt_of_le hlt (le_of_not_lt h1))
            · exact hmin e2 he2 hq2
    · rcases nearbyFold_none_facts geoDist lat lon ntype rest with ⟨hfold, hall⟩ |
        ⟨g, d, hfold, hlt, hsrc, hmin⟩
      · refine Or.inl ⟨?_, ?_⟩
        · rw [nearbyFold, if_neg hq]
          exact hfold
        · intro e he hq2
          rcases List.mem_cons.mp he with rfl | he
          · exact absurd hq2 hq
          · exact hall e he hq2
      · refine Or.inr ⟨g, d, ?_, hlt, ?_, ?_⟩
        · rw [nearbyFold, if_neg hq]
          exact hfold
        · obtain ⟨e, he, hq2, hg2, hd2⟩ := hsrc
          exact ⟨e, by simp [he], hq2, hg2, hd2⟩
        · intro e2 he2 hq2
          rcases List.mem_cons.mp he2 with rfl | he2
          · exact absurd hq2 hq
          · exact hmin e2 he2 hq2

/-- Claim C5, counterexample: with the requested key in progress and
nothing cached, `get_graph` returns Python `None` — it neither returns a
graph, nor raises, nor waits for the in-progress fetch. -/
theorem cache_get_counterexample :
    get_graph (fun _ _ _ _ => 0) c5State 10 20 2000 "drive" = .ok none := by
  rfl

/-- Claim C5 as amended: when the requested key misses memory and disk
and is already in progress, `get_graph` returns the result of the
nearby-graph scan — the geographically nearest already-cached graph for
the same profile within 50 km when one exists, and `None` (not a graph,
not an exception, and without waiting for the in-progress fetch) when
none exists. -/
theorem cache_get_amended {γ : Type} (geoDist : ℚ → ℚ → ℚ → ℚ → ℚ)
    (st : GetGraphState γ) (lat lon : ℚ) (distance : ℤ) (ntype : String)
    (hmem : st.memory.find?
      (fun e => e.1 == generate_cache_key lat lon distance ntype) = none)
    (hdisk : st.disk (generate_cache_key lat lon distance ntype) = none)
    (hprog : generate_cache_key lat lon distance ntype ∈ st.inProgress) :
    get_graph geoDist st lat lon distance ntype =
      .ok (get_nearby_graph geoDist st lat lon ntype) ∧
    ((∀ e ∈ st.memory, e.1.networkType = ntype →
        ¬ geoDist lat lon e.1.lat e.1.lon < 50) →
      get_nearby_graph geoDist st lat lon ntype = none) ∧
    (∀ g, get_nearby_graph geoDist st lat lon ntype = some g →
      ∃ e ∈ st.memory, e.2 = g ∧ e.1.networkType = ntype ∧
        geoDist lat lon e.1.lat e.1.lon < 50 ∧
        ∀ e2 ∈ st.memory, e2.1.networkType = ntype →
          geoDist lat lon e.1.lat e.1.lon ≤ geoDist lat lon e2.1.lat e2.1.lon) := by
  refine ⟨?_, ?_, ?_⟩
  · unfold get_graph
    dsimp only
    rw [hmem, hdisk]
    dsimp only
    rw [if_pos hprog]
  · intro hnone
    unfold get_nearby_graph
    rcases nearbyFold_none_facts geoDist lat lon ntype st.memory with ⟨hfold, _⟩ |
      ⟨g, d, hfold, hlt, ⟨e, he, hq, _, hd⟩, _⟩
    · rw [hfold]; rfl
    · exact absurd (hd ▸ hlt) (hnone e he hq)
  · intro g hg
    unfold get_nearby_graph at hg
    rcases nearbyFold_none_facts geoDist lat lon ntype st.memory with ⟨hfold, _⟩ |
      ⟨g2, d, hfold, hlt, ⟨e, he, hq, hg2, hd⟩, hmin⟩
    · rw [hfold] at hg; cases hg
    · rw [hfold] at hg
      simp only [Option.map_some'] at hg
      injection hg with hg
      refine ⟨e, he, by rw [hg2, hg], hq, hd ▸ hlt, ?_⟩
      intro e2 he2 hq2
      rw [hd]
      exact hmin e2 he2 hq2

/-- Witness for `cache_get_amended`: a state with the key in progress
and a single nearby same-profile cached graph. -/
theorem cache_get_amended_witness :
    get_graph (fun _ _ _ _ => 10) c5WitnessState 10 20 2000 "drive" =
      .ok (get_nearby_graph (fun _ _ _ _ => 10) c5WitnessState 10 20 "drive") :=
  (cache_get_amended (fun _ _ _ _ => 10) c5WitnessState 10 20 2000 "drive"
    (by rfl) (by rfl) (by decide)).1

/-! ### C3: diagonal and the missing great-circle fallback -/

/-- Claim C3, counterexample: in a graph of two isolated
coordinate-bearing nodes, the pair (0, 1) has no path, yet its distance
and time entries stay infinite (`none`) — the normal Dijkstra branch
never applies the great-circle / 25 km/h repair the claim requires. -/
theorem matrix_unreachable_counterexample :
    c3Graph.edges = [] ∧
      distLookup (single_source_dijkstra c3Graph 100) 200 = none ∧
      (precompute_distance_matrix c3Graph [100, 200] 0 1).dist = none ∧
      (precompute_distance_matrix c3Graph [100, 200] 0 1).time = none :=
  ⟨rfl, rfl, rfl, rfl⟩

/-- Claim C3 as amended: the diagonal is exactly zero (distance and
time), and in the per-source Dijkstra branch an ordered pair whose
target the Dijkstra result does not reach keeps infinite distance and
time — the great-circle/25 km/h repair lives only in the `except` arm,
which runs only if the Dijkstra call itself raises. -/
theorem matrix_diagonal_and_no_fallback (g : OsmGraph) (nodes : List ℕ)
    (i j : ℕ) (src tgt : ℕ)
    (hi : nodes.get? i = some src) (hj : nodes.get? j = some tgt) :
    (precompute_distance_matrix g nodes i i).dist = some 0 ∧
      (precompute_distance_matrix g nodes i i).time = some 0 ∧
      (i ≠ j → distLookup (single_source_dijkstra g src) tgt = none →
        (precompute_distance_matrix g nodes i j).dist = none ∧
          (precompute_distance_matrix g nodes i j).time = none) := by
  rw [List.get?_eq_getElem?] at hi hj
  refine ⟨?_, ?_, ?_⟩
  · simp [precompute_distance_matrix, hi]
  · simp [precompute_distance_matrix, hi]
  · intro hij hlook
    simp [precompute_distance_matrix, hi, hj, hij, hlook]

/-- Witness for `matrix_diagonal_and_no_fallback` on the two-node
graph. -/
theorem matrix_diagonal_and_no_fallback_witness :
    (precompute_distance_matrix c3Graph [100, 200] 0 0).dist = some 0 ∧
      (precompute_distance_matrix c3Graph [100, 200] 0 1).dist = none :=
  ⟨(matrix_diagonal_and_no_fallback c3Graph [100, 200] 0 1 100 200 rfl rfl).1,
   ((matrix_diagonal_and_no_fallback c3Graph [100, 200] 0 1 100 200 rfl rfl).2.2
     (by decide) rfl).1⟩

/-! ### C4: the TSP solver's tuple-unpacking failure -/

/-- Claim C4: `solve_tsp_optimized` can never return the
nearest-neighbour result — `precompute_distance_matrix` returns a
3-tuple but the call site unpacks it into two variables, so every run
with a nonempty location list raises `ValueError`, which the blanket
`except` converts into the error dict (empty route, zero totals). Shown
here on the concrete two-location request of the spec's TSP scenario. -/
theorem tsp_unpack_valueerror :
    solve_tsp_optimized c3Graph (fun _ _ => 100) c4Data
        (fun _ => { optimal_route := [], minimum_distance_km := 0,
                    estimated_travel_time_seconds := 0,
                    optimal_route_coordinates := [] }) =
      .pyError "ValueError: too many values to unpack (expected 2)" := rfl

/-! ### C1: PDP precedence -/

theorem indexOf_le_of_get? {α : Type} [DecidableEq α] :
    ∀ (l : List α) (n : ℕ) (a : α), l.get? n = some a → l.indexOf a ≤ n
  | [], n, a, h => by simp at h
  | b :: t, 0, a, h => by
    rw [List.get?_cons_zero] at h
    injection h with h
    subst h
    simp
  | b :: t, n + 1, a, h => by
    rw [List.get?_cons_succ] at h
    by_cases hba : b = a
    · subst hba
      simp
    · rw [List.indexOf_cons_ne _ hba]
      have := indexOf_le_of_get? t n a h
      omega

theorem indexOf_eq_of_get?_nodup {α : Type} [DecidableEq α] :
    ∀ (l : List α), l.Nodup → ∀ (n : ℕ) (a : α), l.get? n = some a → l.indexOf a = n
  | [], _, n, a, h => by simp at h
  | b :: t, hnd, 0, a, h => by
    rw [List.get?_cons_zero] at h
    injection h with h
    subst h
    simp
  | b :: t, hnd, n + 1, a, h => by
    rw [List.get?_cons_succ] at h
    have hat : a ∈ t := List.get?_mem h
    have hba : b ≠ a := by
      rintro rfl
      exact (List.nodup_cons.mp hnd).1 hat
    rw [List.indexOf_cons_ne _ hba,
      indexOf_eq_of_get?_nodup t (List.nodup_cons.mp hnd).2 n a h]

theorem nodeKind_pickupIdx {P D : List ℕ} {pkg : ℕ} (h : pkg ∈ P) :
    nodeKind P D (pickupIdx P pkg) = .pickup pkg := by
  unfold nodeKind pickupIdx
  rw [if_neg (by omega)]
  have h2 : 1 + P.indexOf pkg - 1 = P.indexOf pkg := by omega
  rw [h2, List.indexOf_get? h]

theorem nodeKind_deliveryIdx {P D : List ℕ} {pkg : ℕ} (h : pkg ∈ D) :
    nodeKind P D (deliveryIdx P D pkg) = .delivery pkg := by
  unfold nodeKind deliveryIdx
  rw [if_neg (by omega)]
  have h2 : 1 + P.length + D.indexOf pkg - 1 = P.length + D.indexOf pkg := by omega
  rw [h2, List.get?_eq_none.mpr (by omega)]
  have h3 : P.length + D.indexOf pkg - P.length = D.indexOf pkg := by omega
  rw [h3, List.indexOf_get? h]

theorem nodeKind_pickup_inv {P D : List ℕ} (hP : P.Nodup) {i pkg : ℕ}
    (h : nodeKind P D i = .pickup pkg) : pkg ∈ P ∧ i = pickupIdx P pkg := by
  unfold nodeKind at h
  by_cases h0 : i = 0
  · rw [if_pos h0] at h
    cases h
  · rw [if_neg h0] at h
    cases hp : P.get? (i - 1) with
    | some pkg2 =>
      rw [hp] at h
      dsimp only at h
      injection h with h
      subst h
      refine ⟨List.get?_mem hp, ?_⟩
      have := indexOf_eq_of_get?_nodup P hP (i - 1) _ hp
      unfold pickupIdx
      omega
    | none =>
      rw [hp] at h
      dsimp only at h
      cases hd : D.get? (i - 1 - P.length) with
      | some pkg2 => rw [hd] at h; cases h
      | none => rw [hd] at h; cases h

theorem nodeKind_delivery_ge {P D : List ℕ} {i pkg : ℕ}
    (h : nodeKind P D i = .delivery pkg) : 1 + P.length ≤ i := by
  unfold nodeKind at h
  by_cases h0 : i = 0
  · rw [if_pos h0] at h
    cases h
  · rw [if_neg h0] at h
    cases hp : P.get? (i - 1) with
    | some pkg2 => rw [hp] at h; dsimp only at h; cases h
    | none =>
      rw [hp] at h
      have := List.get?_eq_none.mp hp
      omega

theorem pdpSelect_mem (d : ℕ → ℕ → Option ℚ) (P D : List ℕ) (vp : List ℕ) (cur : ℕ) :
    ∀ (l : List ℕ) (acc : Option (ℕ × ℚ)) (j : ℕ) (v : ℚ),
      pdpSelect d P D vp cur acc l = some (j, v) →
      acc = some (j, v) ∨ (j ∈ l ∧ pdpBlocked P D vp j = false)
  | [], acc, j, v, h => Or.inl h
  | i :: rest, acc, j, v, h => by
    rw [pdpSelect] at h
    by_cases hb : pdpBlocked P D vp i = true
    · rw [if_pos hb] at h
      rcases pdpSelect_mem d P D vp cur rest acc j v h with h2 | ⟨h2, h3⟩
      · exact Or.inl h2
      · exact Or.inr ⟨List.mem_cons_of_mem _ h2, h3⟩
    · rw [if_neg hb] at h
      cases hd : d cur i with
      | none =>
        rw [hd] at h
        rcases pdpSelect_mem d P D vp cur rest acc j v h with h2 | ⟨h2, h3⟩
        · exact Or.inl h2
        · exact Or.inr ⟨List.mem_cons_of_mem _ h2, h3⟩
      | some v0 =>
        rw [hd] at h
        dsimp only at h
        have hstep : ∀ (acc2 : Option (ℕ × ℚ)),
            pdpSelect d P D vp cur acc2 rest = some (j, v) →
            acc2 = some (j, v) ∨ (j ∈ i :: rest ∧ pdpBlocked P D vp j = false) := by
          intro acc2 h2
          rcases pdpSelect_mem d P D vp cur rest acc2 j v h2 with h3 | ⟨h3, h4⟩
          · exact Or.inl h3
          · exact Or.inr ⟨List.mem_cons_of_mem _ h3, h4⟩
        cases acc with
        | none =>
          rcases hstep _ h with h3 | h3
          · injection h3 with h3
            have : j = i := by
              have := congrArg Prod.fst h3
              exact this.symm
            subst this
            exact Or.inr ⟨List.mem_cons_self _ _, Bool.not_eq_true _ ▸ (by simpa using hb)⟩
          · exact Or.inr h3
        | some p =>
          obtain ⟨j0, m⟩ := p
          dsimp only at h
          by_cases hv : v0 < m
          · rw [if_pos hv] at h
            rcases hstep _ h with h3 | h3
            · injection h3 with h3
              have : j = i := (congrArg Prod.fst h3).symm
              subst this
              exact Or.inr ⟨List.mem_cons_self _ _, by simpa using hb⟩
            · exact Or.inr h3
          · rw [if_neg hv] at h
            rcases hstep _ h with h3 | h3
            · exact Or.inl h3
            · exact Or.inr h3

theorem listMinD_spec : ∀ (us : List ℕ) (u : ℕ),
    listMinD u us ∈ u :: us ∧ ∀ x ∈ u :: us, listMinD u us ≤ x
  | [], u => ⟨List.mem_cons_self _ _, by simp [listMinD]⟩
  | b :: rest, u => by
    obtain ⟨hmem, hle⟩ := listMinD_spec rest (min u b)
    rw [listMinD]
    constructor
    · rcases List.mem_cons.mp hmem with h | h
      · rcases le_total u b with hub | hub
        · rw [Nat.min_eq_left hub] at h ⊢
          rw [h]
          exact List.mem_cons_self _ _
        · rw [Nat.min_eq_right hub] at h ⊢
          rw [h]
          exact List.mem_cons_of_mem _ (List.mem_cons_self _ _)
      · exact List.mem_cons_of_mem _ (List.mem_cons_of_mem _ h)
    · intro x hx
      rcases List.mem_cons.mp hx with rfl | hx2
      · exact le_trans (hle _ (List.mem_cons_self _ _)) (Nat.min_le_left _ _)
      · rcases List.mem_cons.mp hx2 with rfl | hx3
        · exact le_trans (hle _ (List.mem_cons_self _ _)) (Nat.min_le_right _ _)
        · exact hle _ (List.mem_cons_of_mem _ hx3)

theorem pdpChoice_mem (d : ℕ → ℕ → Option ℚ) (P D vp : List ℕ) (cur u : ℕ)
    (us : List ℕ) : pdpChoice d P D vp cur u us ∈ u :: us := by
  unfold pdpChoice
  cases hsel : pdpSelect d P D vp cur none (u :: us) with
  | none => exact (listMinD_spec us u).1
  | some p =>
    obtain ⟨j, v⟩ := p
    rcases pdpSelect_mem d P D vp cur (u :: us) none j v hsel with h | ⟨h, _⟩
    · cases h
    · exact h

theorem pdpChoice_safe (d : ℕ → ℕ → Option ℚ) (P D vp : List ℕ) (cur u : ℕ)
    (us : List ℕ) (pkg : ℕ)
    (hk : nodeKind P D (pdpChoice d P D vp cur u us) = .delivery pkg) :
    pkg ∈ vp ∨ ∀ x ∈ u :: us, pdpChoice d P D vp cur u us ≤ x := by
  unfold pdpChoice at hk ⊢
  cases hsel : pdpSelect d P D vp cur none (u :: us) with
  | none =>
    rw [hsel] at hk
    exact Or.inr (listMinD_spec us u).2
  | some p =>
    obtain ⟨j, v⟩ := p
    rw [hsel] at hk
    rcases pdpSelect_mem d P D vp cur (u :: us) none j v hsel with h | ⟨_, hbl⟩
    · cases h
    · left
      unfold pdpBlocked at hbl
      rw [hk] at hbl
      simpa using hbl

theorem pickupIdx_inj {P : List ℕ} {p1 p2 : ℕ} (h1 : p1 ∈ P) (h2 : p2 ∈ P)
    (h : pickupIdx P p1 = pickupIdx P p2) : p1 = p2 := by
  unfold pickupIdx at h
  have e : P.indexOf p1 = P.indexOf p2 := by omega
  have g1 := List.indexOf_get? h1
  have g2 := List.indexOf_get? h2
  rw [e, g2] at g1
  injection g1 with g1
  exact g1.symm

theorem pickupIdx_ne_of_kind {P D : List ℕ} {nd pkg : ℕ} (hpkg : pkg ∈ P)
    (h : nodeKind P D nd ≠ .pickup pkg) : pickupIdx P pkg ≠ nd := by
  intro e
  apply h
  rw [← e]
  exact nodeKind_pickupIdx hpkg

theorem pdpLoop_spec (d : ℕ → ℕ → Option ℚ) (P D : List ℕ) (hP : P.Nodup) :
    ∀ (fuel cur : ℕ) (unvisited vp route : List ℕ),
      unvisited.Nodup →
      (∀ i ∈ unvisited, i ∉ route) →
      (∀ pkg, pkg ∈ P → (pkg ∈ vp ↔ pickupIdx P pkg ∈ route)) →
      (∀ pkg, pkg ∈ P → pickupIdx P pkg ∈ route ∨ pickupIdx P pkg ∈ unvisited) →
      RouteGood P D route →
      RouteGood P D (pdpLoop d P D fuel cur unvisited vp route) ∧
        (unvisited.length ≤ fuel →
          ∀ x ∈ unvisited, x ∈ pdpLoop d P D fuel cur unvisited vp route) ∧
        (∀ x ∈ route, x ∈ pdpLoop d P D fuel cur unvisited vp route)
  | 0, cur, unvisited, vp, route => by
    intro _ _ _ _ hgood
    refine ⟨hgood, ?_, fun x hx => hx⟩
    intro hlen x hx
    rw [Nat.le_zero] at hlen
    rw [List.length_eq_zero.mp hlen] at hx
    cases hx
  | fuel + 1, cur, unvisited, vp, route => by
    intro hnodup hdisj hB hC hgood
    cases unvisited with
    | nil =>
      refine ⟨hgood, ?_, fun x hx => hx⟩
      intro _ x hx
      cases hx
    | cons u us =>
      set nd := pdpChoice d P D vp cur u us with hnd
      have hnd_mem : nd ∈ u :: us := pdpChoice_mem d P D vp cur u us
      have hred : pdpLoop d P D (fuel + 1) cur (u :: us) vp route =
          pdpLoop d P D fuel nd ((u :: us).erase nd) (pdpVisit P D vp nd)
            (route ++ [nd]) := rfl
      have hnodup2 : ((u :: us).erase nd).Nodup := hnodup.erase nd
      have hdisj2 : ∀ i ∈ (u :: us).erase nd, i ∉ route ++ [nd] := by
        intro i hi
        obtain ⟨hine, himem⟩ := (hnodup.mem_erase_iff).mp hi
        intro hmem
        rcases List.mem_append.mp hmem with h | h
        · exact hdisj i himem h
        · exact hine (List.mem_singleton.mp h)
      have hB2 : ∀ pkg, pkg ∈ P →
          (pkg ∈ pdpVisit P D vp nd ↔ pickupIdx P pkg ∈ route ++ [nd]) := by
        intro pkg hpkg
        unfold pdpVisit
        cases hk : nodeKind P D nd with
        | pickup pkg0 =>
          obtain ⟨hpkg0, hndidx⟩ := nodeKind_pickup_inv hP hk
          constructor
          · intro hin
            rcases List.mem_cons.mp hin with rfl | hin
            · exact List.mem_append.mpr (Or.inr (by rw [← hndidx]; exact List.mem_singleton.mpr rfl))
            · exact List.mem_append.mpr (Or.inl ((hB pkg hpkg).mp hin))
          · intro hin
            rcases List.mem_append.mp hin with h | h
            · exact List.mem_cons_of_mem _ ((hB pkg hpkg).mpr h)
            · have : pickupIdx P pkg = nd := List.mem_singleton.mp h
              rw [hndidx] at this
              rw [pickupIdx_inj hpkg hpkg0 this]
              exact List.mem_cons_self _ _
        | start =>
          have hne : pickupIdx P pkg ≠ nd :=
            pickupIdx_ne_of_kind hpkg (by rw [hk]; intro h; cases h)
          rw [hB pkg hpkg]
          constructor
          · intro h; exact List.mem_append.mpr (Or.inl h)
          · intro h
            rcases List.mem_append.mp h with h | h
            · exact h
            · exact absurd (List.mem_singleton.mp h) hne
        | delivery pkg1 =>
          have hne : pickupIdx P pkg ≠ nd :=
            pickupIdx_ne_of_kind hpkg (by rw [hk]; intro h; cases h)
          rw [hB pkg hpkg]
          constructor
          · intro h; exact List.mem_append.mpr (Or.inl h)
          · intro h
            rcases List.mem_append.mp h with h | h
            · exact h
            · exact absurd (List.mem_singleton.mp h) hne
        | invalid =>
          have hne : pickupIdx P pkg ≠ nd :=
            pickupIdx_ne_of_kind hpkg (by rw [hk]; intro h; cases h)
          rw [hB pkg hpkg]
          constructor
          · intro h; exact List.mem_append.mpr (Or.inl h)
          · intro h
            rcases List.mem_append.mp h with h | h
            · exact h
            · exact absurd (List.mem_singleton.mp h) hne
      have hC2 : ∀ pkg, pkg ∈ P →
          pickupIdx P pkg ∈ route ++ [nd] ∨ pickupIdx P pkg ∈ (u :: us).erase nd := by
        intro pkg hpkg
        rcases hC pkg hpkg with h | h
        · exact Or.inl (List.mem_append.mpr (Or.inl h))
        · by_cases he : pickupIdx P pkg = nd
          · exact Or.inl (List.mem_append.mpr (Or.inr (List.mem_singleton.mpr he)))
          · exact Or.inr ((hnodup.mem_erase_iff).mpr ⟨he, h⟩)
      have hgood2 : RouteGood P D (route ++ [nd]) := by
        intro pkg k i hget hk hpkg
        rcases lt_trichotomy k route.length with hklt | hkeq | hkgt
        · rw [List.get?_append hklt] at hget
          obtain ⟨j, hjk, hjget⟩ := hgood pkg k i hget hk hpkg
          refine ⟨j, hjk, ?_⟩
          rw [List.get?_append (lt_trans hjk hklt)]
          exact hjget
        · subst hkeq
          rw [List.get?_concat_length] at hget
          injection hget with hget
          subst hget
          have hpk_route : pickupIdx P pkg ∈ route := by
            rcases pdpChoice_safe d P D vp cur u us pkg hk with hvp | hmin
            · exact (hB pkg hpkg).mp hvp
            · rcases hC pkg hpkg with h | h
              · exact h
              · exfalso
                have h1 := hmin _ h
                have h2 := nodeKind_delivery_ge hk
                have h3 : P.indexOf pkg < P.length := List.indexOf_lt_length.mpr hpkg
                unfold pickupIdx at h1
                omega
          obtain ⟨j, hjget⟩ := List.mem_iff_get?.mp hpk_route
          have hjlt : j < route.length := (List.get?_eq_some.mp hjget).1
          refine ⟨j, hjlt, ?_⟩
          rw [List.get?_append hjlt]
          exact hjget
        · exfalso
          have : (route ++ [nd]).get? k = none := by
            rw [List.get?_eq_none]
            simp only [List.length_append, List.length_singleton]
            omega
          rw [this] at hget
          cases hget
      obtain ⟨good2, comp2, sub2⟩ := pdpLoop_spec d P D hP fuel nd
        ((u :: us).erase nd) (pdpVisit P D vp nd) (route ++ [nd])
        hnodup2 hdisj2 hB2 hC2 hgood2
      rw [hred]
      refine ⟨good2, ?_, ?_⟩
      · intro hlen x hx
        have hlen2 : ((u :: us).erase nd).length ≤ fuel := by
          rw [List.length_erase_of_mem hnd_mem]
          simp only [List.length_cons] at hlen ⊢
          omega
        by_cases hxnd : x = nd
        · rw [hxnd]
          exact sub2 nd (List.mem_append.mpr (Or.inr (List.mem_singleton.mpr rfl)))
        · exact comp2 hlen2 x ((hnodup.mem_erase_iff).mpr ⟨hxnd, hx⟩)
      · intro x hx
        exact sub2 x (List.mem_append.mpr (Or.inl hx))

/-- Claim C1: for every distance matrix and every pickup/delivery package
lists in which each package id appears at most once on each side, the
route emitted by the PDP solver places each package's pickup at a
strictly smaller position than its paired delivery. The greedy filter
skips deliveries with unvisited pickups, and the fallback
(force-selecting `min(unvisited)`) cannot pick a blocked delivery either:
pickups occupy smaller indices than deliveries, so a delivery is the
minimum only when every pickup is already routed. The spec's
`InconsistentPDP` clause is therefore vacuous — no fallback can violate
precedence. -/
theorem pdp_precedence (d : ℕ → ℕ → Option ℚ) (P D : List ℕ)
    (hP : P.Nodup) (_hD : D.Nodup) (pkg : ℕ) (hpk : pkg ∈ P) (hdl : pkg ∈ D) :
    (solve_pdp_route d P D).indexOf (pickupIdx P pkg) <
      (solve_pdp_route d P D).indexOf (deliveryIdx P D pkg) := by
  unfold solve_pdp_route
  obtain ⟨hgood, hcomp, _⟩ := pdpLoop_spec d P D hP (P.length + D.length) 0
    (List.range' 1 (P.length + D.length)) [] [0]
    (by
      have := List.nodup_range' 1 (P.length + D.length)
      simpa using this)
    (by
      intro i hi hmem
      rw [List.mem_range'_1] at hi
      rcases List.mem_singleton.mp hmem with rfl
      omega)
    (by
      intro pkg1 hpkg1
      constructor
      · intro h; cases h
      · intro h
        have : pickupIdx P pkg1 = 0 := List.mem_singleton.mp h
        unfold pickupIdx at this
        omega)
    (by
      intro pkg1 hpkg1
      right
      rw [List.mem_range'_1]
      have : P.indexOf pkg1 < P.length := List.indexOf_lt_length.mpr hpkg1
      unfold pickupIdx
      omega)
    (by
      intro pkg1 k i hget hk _
      cases k with
      | zero =>
        rw [List.get?_cons_zero] at hget
        injection hget with hget
        subst hget
        rw [show nodeKind P D 0 = .start from rfl] at hk
        cases hk
      | succ k2 =>
        rw [List.get?_cons_succ] at hget
        cases hget)
  have hdrange : deliveryIdx P D pkg ∈ List.range' 1 (P.length + D.length) := by
    rw [List.mem_range'_1]
    have : D.indexOf pkg < D.length := List.indexOf_lt_length.mpr hdl
    unfold deliveryIdx
    omega
  have hdmem : deliveryIdx P D pkg ∈
      pdpLoop d P D (P.length + D.length) 0
        (List.range' 1 (P.length + D.length)) [] [0] :=
    hcomp (by rw [List.length_range']) _ hdrange
  have hget := List.indexOf_get? hdmem
  obtain ⟨j, hjk, hjget⟩ := hgood pkg _ _ hget (nodeKind_deliveryIdx hdl) hpk
  have hle := indexOf_le_of_get? _ j _ hjget
  omega

/-- Witness for `pdp_precedence`: one pickup/delivery pair over an
all-infinite matrix (both selections go through the fallback step). -/
theorem pdp_precedence_witness :
    (solve_pdp_route (fun _ _ => none) [7] [7]).indexOf (pickupIdx [7] 7) <
      (solve_pdp_route (fun _ _ => none) [7] [7]).indexOf (deliveryIdx [7] [7] 7) :=
  pdp_precedence (fun _ _ => none) [7] [7] (by decide) (by decide) 7
    (by decide) (by decide)

/-! ### C7: isochrone monotonicity -/

/-- Claim C7, counterexample: on `c7Graph` with cutoffs 1 and 2 minutes
and a 111.32 m simplification tolerance, both cutoffs yield polygons and
the reachable-node counts grow (3 then 4), but Douglas–Peucker drops a
hull vertex of the larger isochrone that it keeps on the smaller one, so
the reported `area_km2` falls from 18.59 to 18.06: area is not monotone
after simplification. -/
theorem isochrone_area_counterexample :
    (calculate_isochrone_cached c7Graph 0 [1, 2] (11132 / 100)).map
        (fun e => (e.travel_time_minutes, e.area_km2, e.reachable_nodes)) =
      [(1, 1859 / 100, 3), (2, 903 / 50, 4)] ∧
      (903 / 50 : ℚ) < 1859 / 100 := by
  exact ⟨by decide, by decide⟩

theorem length_filter_mono {α : Type} (p q : α → Bool)
    (h : ∀ x, p x = true → q x = true) :
    ∀ l : List α, (l.filter p).length ≤ (l.filter q).length
  | [] => le_refl _
  | a :: l => by
    by_cases hp : p a = true
    · have hq := h a hp
      simp only [List.filter_cons, hp, hq, if_true]
      simpa using length_filter_mono p q h l
    · have hp2 : p a = false := eq_false_of_ne_true hp
      simp only [List.filter_cons, hp2]
      cases hq : q a with
      | false => simpa using length_filter_mono p q h l
      | true =>
        simp only [if_true]
        have := length_filter_mono p q h l
        calc (List.filter p l).length ≤ (List.filter q l).length := this
          _ ≤ (List.filter q l).length + 1 := Nat.le_succ _
          _ = (a :: List.filter q l).length := by simp

theorem isoEntryFor_fields (g : IsoGraph) (times : List (ℕ × ℚ)) (tol : ℚ)
    (t : ℚ) (e : IsoEntry) (h : isoEntryFor g times tol t = some e) :
    e.travel_time_minutes = t / 60 ∧
      e.reachable_nodes = (reachableNodes times t).length := by
  unfold isoEntryFor at h
  split at h
  · cases h
  · split at h
    · cases h
    · split at h
      · cases h
      · injection h with h
        rw [← h]
        exact ⟨rfl, rfl⟩

/-- Claim C7 as amended: for any two emitted isochrone records, the one
with the smaller cutoff reports at most as many reachable nodes — the
reachable sets are nested by construction. The area claim survives only
up to simplification; at a positive tolerance the reported areas can
decrease (see the counterexample). -/
theorem isochrone_reachable_monotone (g : IsoGraph) (origin : ℕ)
    (travel_times : List ℚ) (tolerance : ℚ) (e1 e2 : IsoEntry)
    (h1 : e1 ∈ calculate_isochrone_cached g origin travel_times tolerance)
    (h2 : e2 ∈ calculate_isochrone_cached g origin travel_times tolerance)
    (ht : e1.travel_time_minutes ≤ e2.travel_time_minutes) :
    e1.reachable_nodes ≤ e2.reachable_nodes := by
  unfold calculate_isochrone_cached at h1 h2
  dsimp only at h1 h2
  obtain ⟨t1, _, he1⟩ := List.mem_filterMap.mp h1
  obtain ⟨t2, _, he2⟩ := List.mem_filterMap.mp h2
  obtain ⟨hm1, hr1⟩ := isoEntryFor_fields _ _ _ _ _ he1
  obtain ⟨hm2, hr2⟩ := isoEntryFor_fields _ _ _ _ _ he2
  have htt : t1 ≤ t2 := by
    rw [hm1, hm2] at ht
    linarith
  rw [hr1, hr2]
  unfold reachableNodes
  simp only [List.length_map]
  refine length_filter_mono _ _ ?_ _
  intro x hx
  simp only [decide_eq_true_eq] at hx ⊢
  linarith

/-- The two records the counterexample run emits, used as the concrete
instantiation of the monotonicity theorem. -/
def c7Entry1 : IsoEntry :=
  { travel_time_minutes := 1, area_km2 := 1859 / 100,
    polygon := [(0, 0), (2, 0), (1, 3 / 2000), (0, 0)], reachable_nodes := 3 }

def c7Entry2 : IsoEntry :=
  { travel_time_minutes := 2, area_km2 := 903 / 50,
    polygon := [(0, 0), (201 / 100, 1 / 10000), (1, 3 / 2000), (0, 0)],
    reachable_nodes := 4 }

/-- Witness for `isochrone_reachable_monotone` on the two records of the
concrete run. -/
theorem isochrone_reachable_monotone_witness :
    c7Entry1.reachable_nodes ≤ c7Entry2.reachable_nodes :=
  isochrone_reachable_monotone c7Graph 0 [1, 2] (11132 / 100) c7Entry1 c7Entry2
    (by decide) (by decide) (by decide)
